import Mathlib

/-!
Verification of the `fhir_query` query client (`src/fhir_query/client.py`).

The client is embedded shallowly: the network is an oracle `Server` mapping a
request to a response, and every operation returns the list of requests it
issued (in order) together with its result, so that statements about "which
requests are made" become statements about that trace.

`client.py` is in the repository source; the collaborating modules
(`fhir_query.base`, `fhir_query.bundle`, `fhir_query.utils`) are not, so those
definitions are modelled from the specification and are marked as such.
-/

set_option autoImplicit false

namespace FhirQuery

/-- A key-value header map, insertion ordered like a Python dict. -/
abbrev HeadersMap := List (String × String)

/-- One entry of a FHIR bundle's `link` array: a relation name and a URL. -/
structure LinkEntry where
  relation : String
  url : String
deriving DecidableEq, Repr

/-- The parsed JSON body of one search-result page: an `entry` array (entries
kept abstract as strings) and a `link` array. -/
structure PageJson where
  entry : List String := []
  link : List LinkEntry := []
deriving DecidableEq, Repr

/-- An HTTP request as issued by the client: method, URL, the value passed to
the session's json parameter (already a string here, since the client passes
`json.dumps(...)` output), basic-auth credentials, and the per-call headers
argument (`none` when the call passes no `headers`). -/
structure Request where
  method : String
  url : String
  data : Option String := none
  auth : Option (String × String) := none
  headers : Option HeadersMap := none
deriving DecidableEq, Repr

/-- An HTTP response from the oracle: status code, parsed JSON page (used by
`response.json()`), and raw text body (used by `response.text` and carried by
HTTP faults). -/
structure Response where
  status : Nat
  json : PageJson := {}
  text : String := ""

/-- The network oracle: what the server answers to each request. -/
abbrev Server := Request → Response

/-- Faults the client can surface: the failed assertion on conflicting query
options, the invalid-URL error raised by the requests library when the literal
boolean `True` is passed as a URL, the `ValueError` for missing login
credentials, the configuration fault at construction, and an HTTP fault
carrying the status code and response body of a 4xx or 5xx response. -/
inductive Fault where
  | assertionError
  | invalidUrl
  | valueError
  | configError
  | http (status : Nat) (body : String)
deriving DecidableEq, Repr

deriving instance DecidableEq for Except

/-- The 2xx success range of an HTTP status code. -/
def is2xx (s : Nat) : Bool := 200 ≤ s && s < 300

/-- The statuses for which `response.raise_for_status()` raises an
`HTTPError`: client errors (4xx) and server errors (5xx). Informational and
redirect statuses pass through without raising. -/
def raisesForStatus (s : Nat) : Bool := 400 ≤ s && s < 600

/-- Python truthiness of an optional string (`None` and `""` are falsy). -/
def pyTruthyStr : Option String → Bool
  | none => false
  | some s => s != ""

/-- Python truthiness of an optional dict (`None` and `{}` are falsy). -/
def pyTruthyParams : Option (List (String × String)) → Bool
  | none => false
  | some ps => !ps.isEmpty

/-! ### URL utilities -/

/-- Hex digit character for percent-encoding (uppercase, as Python's quote). -/
def hexDigit (n : Nat) : Char :=
  if n < 10 then Char.ofNat (48 + n) else Char.ofNat (55 + n)

/-- Percent-encoding of one character as by `urllib.parse.quote_plus`:
alphanumerics and `_.-~` kept, space becomes `+`, anything else `%XX`
(ASCII range, which covers the inputs considered here). -/
def pctEncodeChar (c : Char) : List Char :=
  if c.isAlphanum || c == '_' || c == '.' || c == '-' || c == '~' then [c]
  else if c == ' ' then ['+']
  else ['%', hexDigit (c.toNat / 16), hexDigit (c.toNat % 16)]

/-- `urllib.parse.quote_plus` on a string. -/
def quote_plus (s : String) : String :=
  String.mk (s.data.flatMap pctEncodeChar)

/-- `urllib.parse.urlencode` on an insertion-ordered mapping: the `&`-joined
`key=value` pairs, each side quoted, in insertion order. -/
def urlencode (ps : List (String × String)) : String :=
  String.intercalate "&" (ps.map fun kv => quote_plus kv.1 ++ "=" ++ quote_plus kv.2)

/-- `json.dumps` restricted to the values the client passes it: `None` gives
`null`, a string is wrapped in quotes with backslash and quote escaped. -/
def jsonEscape (s : String) : String :=
  String.mk (s.data.flatMap fun c =>
    if c == '\\' then ['\\', '\\'] else if c == '"' then ['\\', '"'] else [c])

/-- `json.dumps` on the optional search-parameter string. -/
def jsonDumps : Option String → String
  | none => "null"
  | some s => "\"" ++ jsonEscape s ++ "\""

/-- Splits a character list at the first `://`, returning the part before and
the part after, or `none` when there is no scheme separator. -/
def splitSchemeAux : List Char → Option (List Char × List Char)
  | ':' :: '/' :: '/' :: rest => some ([], rest)
  | c :: rest =>
    match splitSchemeAux rest with
    | some (a, b) => some (c :: a, b)
    | none => none
  | [] => none

/-- Splits a character list at the first `/`: the part before it and, when a
slash exists, the part after it. -/
def splitFirstSlash : List Char → List Char × Option (List Char)
  | [] => ([], none)
  | '/' :: rest => ([], some rest)
  | c :: rest =>
    let p := splitFirstSlash rest
    (c :: p.1, p.2)

/-- The prefix of a character list up to and including its last `/`
(empty when there is no slash). -/
def takeToLastSlash (l : List Char) : List Char :=
  (l.reverse.dropWhile (fun c => c != '/')).reverse

/-- `urllib.parse.urljoin` restricted to the shapes the client uses: an
absolute `scheme://authority/path` base and a relative path reference. Per
RFC 3986 merging, the reference replaces everything after the last `/` of the
base's path; a base without a trailing slash therefore loses its last path
segment. -/
def urljoin (base rel : String) : String :=
  match splitSchemeAux base.data with
  | none => rel
  | some (scheme, rest) =>
    let p := splitFirstSlash rest
    let pathPrefix := match p.2 with
      | none => []
      | some path => takeToLastSlash path
    String.mk (scheme ++ (':' :: '/' :: '/' :: p.1) ++ '/' :: (pathPrefix ++ rel.data))

/-- Modelled from the spec: `fhir_query.utils.is_absolute_url` (module not in
src) — "true iff the string includes a scheme". -/
def is_absolute_url (u : String) : Bool :=
  (splitSchemeAux u.data).isSome

/-- Modelled from the spec: `fhir_query.utils.merge_url_with_path` (module not
in src) — joins a relative link onto the base URL keeping the base's path,
tolerating a trailing slash on the base and a leading slash on the path, so
that both `("https://h/fhir/", "/Patient?x=1")` and
`("https://h/fhir", "Patient?x=1")` give `"https://h/fhir/Patient?x=1"`. -/
def merge_url_with_path (base path : String) : String :=
  let b := match base.data.reverse with
    | '/' :: rest => String.mk rest.reverse
    | _ => base
  let p := match path.data with
    | '/' :: rest => String.mk rest
    | _ => path
  b ++ "/" ++ p

/-! ### Bundle -/

/-- Modelled from the spec: `fhir_query.bundle.FhirQueryBundle` (module not in
src) — holds the accumulated entries and the pagination link of the most
recently added page. -/
structure FhirQueryBundle where
  entries : List String
  next_link : Option String
deriving DecidableEq, Repr

/-- The `next` pagination link of a page: the URL of the first `link` array
entry whose relation is `"next"`. -/
def nextOf (p : PageJson) : Option String :=
  (p.link.find? fun l => l.relation == "next").map LinkEntry.url

/-- Modelled from the spec: constructing a bundle from one parsed page. -/
def FhirQueryBundle.ofPage (p : PageJson) : FhirQueryBundle :=
  { entries := p.entry, next_link := nextOf p }

/-- Modelled from the spec: `add_bundle` appends the other page's entries and
replaces the pagination link with the other page's link. -/
def FhirQueryBundle.add_bundle (b : FhirQueryBundle) (p : PageJson) : FhirQueryBundle :=
  { entries := b.entries ++ p.entry, next_link := nextOf p }

/-! ### Client state -/

/-- The client's state: configuration stored by `__init__` (with the base
class `FhirClientBase` holding base URL, headers and credentials), the
session's header map, and the pending-login flag. -/
structure FhirQueryClient where
  base_url : String
  use_post : Bool := false
  headers : HeadersMap := []
  session_headers : HeadersMap := []
  auth_method : Option String := none
  login_url : Option String := none
  username : Option String := none
  password : Option String := none
  token : Option String := none
  pending_login : Bool := false
deriving DecidableEq, Repr

/-- Update-or-append of one header in a header map. -/
def updateHeader (hs : HeadersMap) (k v : String) : HeadersMap :=
  if hs.any (fun p => p.1 == k) then
    hs.map (fun p => if p.1 == k then (k, v) else p)
  else hs ++ [(k, v)]

/-- Lookup of one header in a header map. -/
def headerGet (hs : HeadersMap) (k : String) : Option String :=
  (hs.find? fun p => p.1 == k).map Prod.snd

/-- Modelled from the spec: `FhirClientBase._setup_token_auth` (module not in
src) — static-token auth installs a bearer-style Authorization header on the
session. -/
def setupTokenAuth (c : FhirQueryClient) (tok : String) : FhirQueryClient :=
  { c with token := some tok,
           session_headers := updateHeader c.session_headers "Authorization" ("Bearer " ++ tok) }

/-- Construction of a client. The validation is modelled from the spec:
`FhirClientBase.__init__` (module not in src) fails with a configuration
fault when login-exchange is selected without both username and password, or
without a login URL. On success the client stores its configuration, merges
its own headers into the session, and marks login as pending exactly when the
auth method is `login` (client.py lines 21-53). -/
def mkFhirQueryClient (base_url : String) (use_post : Bool) (headers : HeadersMap)
    (auth_method login_url username password token : Option String) :
    Except Fault FhirQueryClient :=
  if auth_method == some "login" && (login_url.isNone || username.isNone || password.isNone) then
    .error .configError
  else
    .ok { base_url := base_url, use_post := use_post, headers := headers,
          session_headers := headers, auth_method := auth_method, login_url := login_url,
          username := username, password := password, token := token,
          pending_login := auth_method == some "login" }

/-! ### Requests and operations -/

/-- `FhirQueryClient.make_request`: issue one request through the session and,
when `raise_for_status` fires on a 4xx or 5xx status, surface an HTTP fault
carrying the status code and body; every other status falls through to
`response.json()` (the oracle supplies the parsed body; a response whose body
is not JSON is outside this model). -/
def make_request (srv : Server) (method url : String) (data : Option String)
    (headers : Option HeadersMap) : List Request × Except Fault PageJson :=
  let req : Request := { method := method, url := url, data := data, auth := none, headers := headers }
  let resp := srv req
  ([req], if raisesForStatus resp.status then .error (.http resp.status resp.text) else .ok resp.json)

/-- The login-exchange request: GET on the given login URL (falling back to
the configured one, as `login_url or self.login_url`), with basic credentials
and the client's own headers. -/
def loginReq (c : FhirQueryClient) (lu : String) : Request :=
  { method := "GET", url := if lu != "" then lu else c.login_url.getD "", data := none,
    auth := some (c.username.getD "", c.password.getD ""), headers := some c.headers }

/-- `FhirQueryClient._setup_login_auth`: require truthy username and password,
then GET the login URL with basic credentials and the client's own headers;
on success store the response text as token and install static-token auth. -/
def setupLoginAuth (c : FhirQueryClient) (srv : Server) (login_url : String) :
    List Request × Except Fault FhirQueryClient :=
  if !(pyTruthyStr c.username) || !(pyTruthyStr c.password) then
    ([], .error .valueError)
  else if login_url == "" && !(pyTruthyStr c.login_url) then
    ([], .error .valueError)
  else
    let req := loginReq c login_url
    let resp := srv req
    if raisesForStatus resp.status then ([req], .error (.http resp.status resp.text))
    else ([req], .ok (setupTokenAuth c resp.text))

/-- `FhirQueryClient.ensure_auth`: when login is pending and a truthy login
URL is configured, perform the login exchange and clear the pending flag;
otherwise do nothing. -/
def ensureAuth (c : FhirQueryClient) (srv : Server) :
    List Request × Except Fault FhirQueryClient :=
  if c.pending_login && pyTruthyStr c.login_url then
    let r := setupLoginAuth c srv (c.login_url.getD "")
    match r.2 with
    | .ok c2 => (r.1, .ok { c2 with pending_login := false })
    | .error e => (r.1, .error e)
  else ([], .ok c)

/-- The `full_url` argument as Python receives it: the default `False`, the
literal `True`, or (as callers must pass for the branch to be usable) a URL
string. -/
inductive FullUrlArg where
  | boolFalse
  | boolTrue
  | str (s : String)
deriving DecidableEq, Repr

/-- Python truthiness of the `full_url` argument. -/
def truthyFull : FullUrlArg → Bool
  | .boolFalse => false
  | .boolTrue => true
  | .str s => s != ""

/-- The arguments of one `get` call, with the Python defaults. -/
structure GetArgs where
  resource_type : String
  params : Option (List (String × String)) := none
  full_url : FullUrlArg := .boolFalse
  search_string : Option String := none
  use_post : Bool := false
  pages : Option Nat := none
  headers : Option HeadersMap := none
deriving DecidableEq, Repr

/-- The count checked by the assertion in `_get` (client.py lines 108-114):
`params is not None`, `search_string is not None`, and `full_url is True` —
note the identity test, which counts only the literal boolean. -/
def providedOptions (a : GetArgs) : Nat :=
  (if a.params.isSome then 1 else 0) + (if a.search_string.isSome then 1 else 0) +
    (if a.full_url = FullUrlArg.boolTrue then 1 else 0)

/-- The `search_params` value computed in `_get` (lines 124-129): the
URL-encoded params when the dict is truthy, else the search string when
truthy, else none. -/
def searchParamsOf (a : GetArgs) : Option String :=
  if pyTruthyParams a.params then some (urlencode (a.params.getD []))
  else if pyTruthyStr a.search_string then a.search_string
  else none

/-- Resolution of a pagination link (lines 161-166): an absolute link is used
as is, a relative one is merged with the base URL. -/
def resolveNextUrl (base link : String) : String :=
  if is_absolute_url link then link else merge_url_with_path base link

/-- The page-following loop of `_get` (lines 155-168), with the remaining page
budget as fuel: while budget remains and the bundle's current next link is
present, GET the resolved link (with no data and no per-call headers), merge
the fetched page into the bundle, and recurse; a non-2xx response aborts. -/
def fetchPages (srv : Server) (base_url : String) :
    FhirQueryBundle → Nat → List Request × Except Fault FhirQueryBundle
  | b, 0 => ([], .ok b)
  | b, n + 1 =>
    match b.next_link with
    | none => ([], .ok b)
    | some link =>
      let r := make_request srv "GET" (resolveNextUrl base_url link) none none
      match r.2 with
      | .error e => (r.1, .error e)
      | .ok page =>
        let r2 := fetchPages srv base_url (b.add_bundle page) n
        (r.1 ++ r2.1, r2.2)

/-- `FhirQueryClient._get` (lines 89-170): assert at most one of the three
query options (counting `full_url` only when it is the literal `True`); when
`full_url` is truthy, GET it directly (the literal `True` makes the requests
library raise an invalid-URL error before any network I/O) and wrap the
response without pagination; otherwise issue the GET or POST search request
and, when `pages` is truthy and greater than one, follow next links with a
budget of `pages - 1`. -/
def internalGet (c : FhirQueryClient) (srv : Server) (a : GetArgs) :
    List Request × Except Fault FhirQueryBundle :=
  if providedOptions a > 1 then ([], .error .assertionError)
  else if truthyFull a.full_url then
    match a.full_url with
    | .str u =>
      let r := make_request srv "GET" u none a.headers
      (r.1, r.2.map FhirQueryBundle.ofPage)
    | _ => ([], .error .invalidUrl)
  else
    let sp := searchParamsOf a
    let r1 :=
      if a.use_post || c.use_post then
        make_request srv "POST" (urljoin c.base_url (a.resource_type ++ "/_search"))
          (some (jsonDumps sp)) a.headers
      else
        let url0 := urljoin c.base_url a.resource_type
        let url := match sp with
          | some q => url0 ++ "?" ++ q
          | none => url0
        make_request srv "GET" url none a.headers
    match r1.2 with
    | .error e => (r1.1, .error e)
    | .ok page =>
      let b0 := FhirQueryBundle.ofPage page
      match a.pages with
      | some p =>
        if p > 1 then
          let r2 := fetchPages srv c.base_url b0 (p - 1)
          (r1.1 ++ r2.1, r2.2)
        else (r1.1, .ok b0)
      | none => (r1.1, .ok b0)

/-- `FhirQueryClient.get` (lines 64-87): ensure authentication, then run the
internal get; the requests of both phases are concatenated. -/
def FhirQueryClient.get (c : FhirQueryClient) (srv : Server) (a : GetArgs) :
    List Request × Except Fault FhirQueryBundle :=
  let r := ensureAuth c srv
  match r.2 with
  | .error e => (r.1, .error e)
  | .ok c2 =>
    let r2 := internalGet c2 srv a
    (r.1 ++ r2.1, r2.2)

/-! ### Observations on traces -/

/-- The concatenation, in fetch order, of the entries of the pages the server
returns for each request of a trace. -/
def concatEntries (srv : Server) (tr : List Request) : List String :=
  (tr.map fun r => (srv r).json.entry).flatten

/-- The follow-up request issued for one pagination link. -/
def pageReq (base link : String) : Request :=
  { method := "GET", url := resolveNextUrl base link, data := none, auth := none, headers := none }

/-- Checks that a trace is a pagination chain: starting from the current next
link, each request is a GET to the resolved current link (with no body and no
per-call headers), and the link for the following request is the `next` link
of the page that request returned. -/
def chainOkB (srv : Server) (base : String) : Option String → List Request → Bool
  | _, [] => true
  | none, _ :: _ => false
  | some l, r :: rs =>
    if r = pageReq base l then chainOkB srv base (nextOf (srv r).json) rs else false

/-- The fault of a result, independent of the success type. -/
def errOf {α : Type} : Except Fault α → Option Fault
  | .ok _ => none
  | .error e => some e

/-- Abort discipline of a trace: every request answered with a 4xx or 5xx
status (the statuses `raise_for_status` raises for) is the last request of
the trace, and then the surfaced fault is the HTTP fault carrying that
response's status code and body; an HTTP fault never arises without a
request. -/
def faultTrace (srv : Server) : List Request → Option Fault → Prop
  | [], res => ∀ s b, res ≠ some (.http s b)
  | r :: rs, res =>
    if raisesForStatus (srv r).status then
      rs = [] ∧ res = some (.http (srv r).status (srv r).text)
    else faultTrace srv rs res

/-- The single request issued by the full-URL branch of `_get`. -/
def fullUrlReq (u : String) (h : Option HeadersMap) : Request :=
  { method := "GET", url := u, data := none, auth := none, headers := h }

/-- The initial search request of `_get` in GET or POST mode. -/
def searchReq (c : FhirQueryClient) (a : GetArgs) : Request :=
  if a.use_post || c.use_post then
    { method := "POST", url := urljoin c.base_url (a.resource_type ++ "/_search"),
      data := some (jsonDumps (searchParamsOf a)), auth := none, headers := a.headers }
  else
    { method := "GET",
      url := match searchParamsOf a with
        | some q => urljoin c.base_url a.resource_type ++ "?" ++ q
        | none => urljoin c.base_url a.resource_type,
      data := none, auth := none, headers := a.headers }

/-! ### Concrete instances used as witnesses -/

/-- A first result page: one entry and a relative `next` link. -/
def page1 : PageJson :=
  { entry := ["p1"],
    link := [{ relation := "self", url := "https://h/fhir/Patient?a=1" },
             { relation := "next", url := "/Patient?page=2" }] }

/-- A final result page: one entry and no `next` link. -/
def page2 : PageJson :=
  { entry := ["p2"], link := [{ relation := "self", url := "https://h/fhir/Patient?page=2" }] }

/-- A demo server: a two-page Patient search, a `_search` endpoint, a login
endpoint returning a token, an external URL answering with the linked first
page, a failing endpoint, and 404 for everything else. -/
def srvDemo : Server := fun r =>
  if r.url == "https://h/fhir/Patient?a=1" then { status := 200, json := page1 }
  else if r.url == "https://h/fhir/Patient?page=2" then { status := 200, json := page2 }
  else if r.url == "https://h/fhir/Patient/_search" then { status := 200, json := page2 }
  else if r.url == "https://h/login" then { status := 200, text := "tok123" }
  else if r.url == "https://other/x" then { status := 200, json := page1 }
  else if r.url == "https://h/fhir/Boom" then { status := 500, text := "boom" }
  else { status := 404, text := "not found" }

/-- A server answering the two-page Patient search with 304 Not Modified
responses that still carry JSON bodies: `raise_for_status` does not raise for
3xx, so the client processes these pages as if they had succeeded. -/
def srvRedirect : Server := fun r =>
  if r.url == "https://h/fhir/Patient?a=1" then { status := 304, json := page1, text := "p1" }
  else if r.url == "https://h/fhir/Patient?page=2" then { status := 304, json := page2, text := "p2" }
  else { status := 404, text := "not found" }

/-- A client with a trailing-slash base URL and no authentication. -/
def cSlash : FhirQueryClient := { base_url := "https://h/fhir/" }

/-- A client whose base URL has no trailing slash. -/
def cNoSlash : FhirQueryClient := { base_url := "https://h/fhir" }

/-- A login-exchange client with a pending login. -/
def cLogin : FhirQueryClient :=
  { base_url := "https://h/fhir/", headers := [("X-App", "demo")],
    session_headers := [("X-App", "demo")], auth_method := some "login",
    login_url := some "https://h/login", username := some "u", password := some "p",
    pending_login := true }

/-- The state of `cLogin` after a completed login against `srvDemo`. -/
def cLoginDone : FhirQueryClient :=
  { cLogin with
    pending_login := false
    token := some "tok123"
    session_headers := [("X-App", "demo"), ("Authorization", "Bearer tok123")] }

/-- Arguments of a plain paginated params query. -/
def aPag : GetArgs := { resource_type := "Patient", params := some [("a", "1")], pages := some 2 }

/-- Arguments of a single-page params query. -/
def aOnePage : GetArgs := { resource_type := "Patient", params := some [("a", "1")], pages := some 1 }

/-- Arguments of a two-pair params query. -/
def aParamsAB : GetArgs := { resource_type := "Patient", params := some [("a", "1"), ("b", "2")] }

/-- Arguments providing both a params mapping and a full URL string. -/
def aParamsAndUrl : GetArgs :=
  { resource_type := "Patient", params := some [("a", "1")], full_url := .str "https://other/x" }

/-- Arguments providing both a params mapping and a search string. -/
def aParamsAndSearch : GetArgs :=
  { resource_type := "Patient", params := some [("a", "1")], search_string := some "b=2" }

/-- Arguments of a full-URL query with a generous page budget. -/
def aFull : GetArgs :=
  { resource_type := "Patient", full_url := .str "https://other/x", pages := some 5 }

/-! ### Unfolding lemmas -/

theorem ofPage_entries (p : PageJson) :
    (FhirQueryBundle.ofPage p).entries = p.entry := rfl

theorem ofPage_next (p : PageJson) :
    (FhirQueryBundle.ofPage p).next_link = nextOf p := rfl

theorem add_bundle_entries (b : FhirQueryBundle) (p : PageJson) :
    (b.add_bundle p).entries = b.entries ++ p.entry := rfl

theorem add_bundle_next (b : FhirQueryBundle) (p : PageJson) :
    (b.add_bundle p).next_link = nextOf p := rfl

theorem concatEntries_nil (srv : Server) : concatEntries srv [] = [] := rfl

theorem concatEntries_cons (srv : Server) (r : Request) (tr : List Request) :
    concatEntries srv (r :: tr) = (srv r).json.entry ++ concatEntries srv tr := by
  simp [concatEntries]

theorem fetchPages_zero (srv : Server) (base : String) (b : FhirQueryBundle) :
    fetchPages srv base b 0 = ([], .ok b) := rfl

theorem fetchPages_no_link (srv : Server) (base : String) (b : FhirQueryBundle) (n : Nat)
    (h : b.next_link = none) : fetchPages srv base b (n + 1) = ([], .ok b) := by
  simp [fetchPages, h]

theorem fetchPages_ok (srv : Server) (base : String) (b : FhirQueryBundle) (n : Nat) (l : String)
    (h : b.next_link = some l) (h2 : raisesForStatus (srv (pageReq base l)).status = false) :
    fetchPages srv base b (n + 1) =
      (pageReq base l ::
        (fetchPages srv base (b.add_bundle (srv (pageReq base l)).json) n).1,
       (fetchPages srv base (b.add_bundle (srv (pageReq base l)).json) n).2) := by
  simp only [fetchPages, h, make_request, pageReq] at h2 ⊢
  simp [h2]

theorem fetchPages_err (srv : Server) (base : String) (b : FhirQueryBundle) (n : Nat) (l : String)
    (h : b.next_link = some l) (h2 : raisesForStatus (srv (pageReq base l)).status = true) :
    fetchPages srv base b (n + 1) =
      ([pageReq base l],
       .error (.http (srv (pageReq base l)).status (srv (pageReq base l)).text)) := by
  simp only [fetchPages, h, make_request, pageReq] at h2 ⊢
  simp [h2]

/-! ### Pagination-loop invariants -/

theorem fetchPages_length (srv : Server) (base : String) :
    ∀ (n : Nat) (b : FhirQueryBundle), (fetchPages srv base b n).1.length ≤ n := by
  intro n
  induction n with
  | zero => intro b; simp [fetchPages_zero]
  | succ m ih =>
    intro b
    cases hb : b.next_link with
    | none => simp [fetchPages_no_link srv base b m hb]
    | some l =>
      by_cases h2 : raisesForStatus (srv (pageReq base l)).status = true
      · rw [fetchPages_err srv base b m l hb h2]
        simp
      · rw [fetchPages_ok srv base b m l hb (Bool.eq_false_iff.mpr h2)]
        simpa using Nat.succ_le_succ (ih _)

theorem fetchPages_chain (srv : Server) (base : String) :
    ∀ (n : Nat) (b : FhirQueryBundle),
      chainOkB srv base b.next_link (fetchPages srv base b n).1 = true := by
  intro n
  induction n with
  | zero => intro b; simp [fetchPages_zero, chainOkB]
  | succ m ih =>
    intro b
    cases hb : b.next_link with
    | none => rw [fetchPages_no_link srv base b m hb]; simp [chainOkB]
    | some l =>
      by_cases h2 : raisesForStatus (srv (pageReq base l)).status = true
      · rw [fetchPages_err srv base b m l hb h2]
        simp [chainOkB]
      · rw [fetchPages_ok srv base b m l hb (Bool.eq_false_iff.mpr h2)]
        have := ih (b.add_bundle (srv (pageReq base l)).json)
        rw [add_bundle_next] at this
        simp [chainOkB, this]

theorem fetchPages_entries (srv : Server) (base : String) :
    ∀ (n : Nat) (b b2 : FhirQueryBundle), (fetchPages srv base b n).2 = .ok b2 →
      b2.entries = b.entries ++ concatEntries srv (fetchPages srv base b n).1 := by
  intro n
  induction n with
  | zero =>
    intro b b2 h
    rw [fetchPages_zero] at h ⊢
    cases h
    simp [concatEntries_nil]
  | succ m ih =>
    intro b b2 h
    cases hb : b.next_link with
    | none =>
      rw [fetchPages_no_link srv base b m hb] at h ⊢
      cases h
      simp [concatEntries_nil]
    | some l =>
      by_cases h2 : raisesForStatus (srv (pageReq base l)).status = true
      · rw [fetchPages_err srv base b m l hb h2] at h
        simp at h
      · rw [fetchPages_ok srv base b m l hb (Bool.eq_false_iff.mpr h2)] at h ⊢
        have := ih (b.add_bundle (srv (pageReq base l)).json) b2 h
        rw [add_bundle_entries] at this
        simp [concatEntries_cons, this, List.append_assoc]

theorem fetchPages_stop (srv : Server) (base : String) :
    ∀ (n : Nat) (b b2 : FhirQueryBundle), (fetchPages srv base b n).2 = .ok b2 →
      b2.next_link = none ∨ (fetchPages srv base b n).1.length = n := by
  intro n
  induction n with
  | zero => intro b b2 _; right; simp [fetchPages_zero]
  | succ m ih =>
    intro b b2 h
    cases hb : b.next_link with
    | none =>
      rw [fetchPages_no_link srv base b m hb] at h
      cases h
      exact Or.inl hb
    | some l =>
      by_cases h2 : raisesForStatus (srv (pageReq base l)).status = true
      · rw [fetchPages_err srv base b m l hb h2] at h
        simp at h
      · rw [fetchPages_ok srv base b m l hb (Bool.eq_false_iff.mpr h2)] at h ⊢
        rcases ih (b.add_bundle (srv (pageReq base l)).json) b2 h with hn | hl
        · exact Or.inl hn
        · right; simp [hl]

theorem fetchPages_headers (srv : Server) (base : String) :
    ∀ (n : Nat) (b : FhirQueryBundle) (r : Request), r ∈ (fetchPages srv base b n).1 →
      r.headers = none := by
  intro n
  induction n with
  | zero => intro b r h; rw [fetchPages_zero] at h; simp at h
  | succ m ih =>
    intro b r h
    cases hb : b.next_link with
    | none => rw [fetchPages_no_link srv base b m hb] at h; simp at h
    | some l =>
      by_cases h2 : raisesForStatus (srv (pageReq base l)).status = true
      · rw [fetchPages_err srv base b m l hb h2] at h
        rcases List.mem_cons.mp h with hr | hr
        · subst hr; rfl
        · simp at hr
      · rw [fetchPages_ok srv base b m l hb (Bool.eq_false_iff.mpr h2)] at h
        rcases List.mem_cons.mp h with hr | hr
        · subst hr; rfl
        · exact ih _ r hr

theorem is2xx_not_raises (s : Nat) (h : is2xx s = true) : raisesForStatus s = false := by
  simp [is2xx] at h
  simp [raisesForStatus]
  omega

theorem fetchPages_fault (srv : Server) (base : String) :
    ∀ (n : Nat) (b : FhirQueryBundle),
      faultTrace srv (fetchPages srv base b n).1 (errOf (fetchPages srv base b n).2) := by
  intro n
  induction n with
  | zero => intro b; rw [fetchPages_zero]; simp [faultTrace, errOf]
  | succ m ih =>
    intro b
    cases hb : b.next_link with
    | none => rw [fetchPages_no_link srv base b m hb]; simp [faultTrace, errOf]
    | some l =>
      by_cases h2 : raisesForStatus (srv (pageReq base l)).status = true
      · rw [fetchPages_err srv base b m l hb h2]
        simp [faultTrace, errOf, h2]
      · have hf := Bool.eq_false_iff.mpr h2
        rw [fetchPages_ok srv base b m l hb hf]
        simp only [faultTrace, hf, Bool.false_eq_true, if_false]
        exact ih _

theorem faultTrace_append (srv : Server) (tr1 tr2 : List Request) (res : Option Fault)
    (h1 : ∀ r ∈ tr1, raisesForStatus (srv r).status = false) (h2 : faultTrace srv tr2 res) :
    faultTrace srv (tr1 ++ tr2) res := by
  induction tr1 with
  | nil => simpa using h2
  | cons r rs ih =>
    have hr : raisesForStatus (srv r).status = false := h1 r (List.mem_cons_self r rs)
    simp only [List.cons_append, faultTrace, hr, Bool.false_eq_true, if_false]
    exact ih fun x hx => h1 x (List.mem_cons_of_mem r hx)

/-! ### The search request and the main unfolding of the internal get -/

theorem internalGet_eq (c : FhirQueryClient) (srv : Server) (a : GetArgs)
    (h1 : providedOptions a ≤ 1) (h2 : truthyFull a.full_url = false) :
    internalGet c srv a =
      (if raisesForStatus (srv (searchReq c a)).status then
        ([searchReq c a],
         .error (.http (srv (searchReq c a)).status (srv (searchReq c a)).text))
      else
        (match a.pages with
         | some p =>
           if p > 1 then
             (searchReq c a ::
               (fetchPages srv c.base_url
                 (FhirQueryBundle.ofPage (srv (searchReq c a)).json) (p - 1)).1,
              (fetchPages srv c.base_url
                (FhirQueryBundle.ofPage (srv (searchReq c a)).json) (p - 1)).2)
           else ([searchReq c a], .ok (FhirQueryBundle.ofPage (srv (searchReq c a)).json))
         | none => ([searchReq c a], .ok (FhirQueryBundle.ofPage (srv (searchReq c a)).json)))) := by
  unfold internalGet
  rw [if_neg (by omega), if_neg (by simp [h2])]
  by_cases hp : (a.use_post || c.use_post) = true
  · by_cases hs : raisesForStatus (srv (searchReq c a)).status = true
    · have hs2 := hs
      simp only [searchReq, hp, if_true] at hs2
      simp [searchReq, hp, make_request, hs2]
    · have hs2 : raisesForStatus (srv (searchReq c a)).status = false := Bool.eq_false_iff.mpr hs
      simp only [searchReq, hp, if_true] at hs2
      simp [searchReq, hp, make_request, hs2]
  · have hp2 : (a.use_post || c.use_post) = false := by simpa using hp
    by_cases hs : raisesForStatus (srv (searchReq c a)).status = true
    · have hs2 := hs
      simp only [searchReq, hp2, Bool.false_eq_true, if_false] at hs2
      simp [searchReq, hp2, make_request, hs2]
    · have hs2 : raisesForStatus (srv (searchReq c a)).status = false := Bool.eq_false_iff.mpr hs
      simp only [searchReq, hp2, Bool.false_eq_true, if_false] at hs2
      simp [searchReq, hp2, make_request, hs2]

theorem chainOkB_nil (srv : Server) (base : String) (cur : Option String) :
    chainOkB srv base cur [] = true := by
  cases cur <;> rfl

theorem internalGet_paged (c : FhirQueryClient) (srv : Server) (a : GetArgs) (n : Nat)
    (h1 : providedOptions a ≤ 1) (h2 : truthyFull a.full_url = false)
    (h3 : a.pages = some n) (h4 : 1 < n)
    (hs : raisesForStatus (srv (searchReq c a)).status = false) :
    internalGet c srv a =
      (searchReq c a ::
        (fetchPages srv c.base_url
          (FhirQueryBundle.ofPage (srv (searchReq c a)).json) (n - 1)).1,
       (fetchPages srv c.base_url
         (FhirQueryBundle.ofPage (srv (searchReq c a)).json) (n - 1)).2) := by
  rw [internalGet_eq c srv a h1 h2, if_neg (by simp [hs]), h3]
  simp [h4]

theorem internalGet_err (c : FhirQueryClient) (srv : Server) (a : GetArgs)
    (h1 : providedOptions a ≤ 1) (h2 : truthyFull a.full_url = false)
    (hs : raisesForStatus (srv (searchReq c a)).status = true) :
    internalGet c srv a =
      ([searchReq c a],
       .error (.http (srv (searchReq c a)).status (srv (searchReq c a)).text)) := by
  rw [internalGet_eq c srv a h1 h2, if_pos hs]

theorem get_eq (c : FhirQueryClient) (srv : Server) (a : GetArgs) :
    FhirQueryClient.get c srv a =
      (match (ensureAuth c srv).2 with
       | .error e => ((ensureAuth c srv).1, .error e)
       | .ok c2 =>
         ((ensureAuth c srv).1 ++ (internalGet c2 srv a).1, (internalGet c2 srv a).2)) := rfl

/-! ### Authentication lemmas -/

theorem headerGet_cons (p : String × String) (t : HeadersMap) (k : String) :
    headerGet (p :: t) k = if p.1 == k then some p.2 else headerGet t k := by
  unfold headerGet
  rw [List.find?_cons]
  by_cases hp : (p.1 == k) = true
  · simp [hp]
  · have hp2 : (p.1 == k) = false := by simpa using hp
    simp [hp2]

theorem headerGet_map_update (k v : String) :
    ∀ hs : HeadersMap, hs.any (fun p => p.1 == k) = true →
      headerGet (hs.map fun p => if p.1 == k then (k, v) else p) k = some v := by
  intro hs
  induction hs with
  | nil => intro h; simp at h
  | cons p t ih =>
    intro h
    rw [List.map_cons]
    by_cases hp : (p.1 == k) = true
    · rw [if_pos hp, headerGet_cons, if_pos (by simp)]
    · have hp2 : (p.1 == k) = false := by simpa using hp
      have ht : t.any (fun q => q.1 == k) = true := by
        simp only [List.any_cons, hp2, Bool.false_or] at h
        exact h
      rw [if_neg hp, headerGet_cons, if_neg hp]
      exact ih ht

theorem headerGet_append_new (k v : String) :
    ∀ hs : HeadersMap, hs.any (fun p => p.1 == k) = false →
      headerGet (hs ++ [(k, v)]) k = some v := by
  intro hs
  induction hs with
  | nil => intro _; rw [List.nil_append, headerGet_cons, if_pos (by simp)]
  | cons p t ih =>
    intro h
    simp only [List.any_cons, Bool.or_eq_false_iff] at h
    rw [List.cons_append, headerGet_cons, if_neg (by simp [h.1])]
    exact ih h.2

theorem headerGet_updateHeader (hs : HeadersMap) (k v : String) :
    headerGet (updateHeader hs k v) k = some v := by
  by_cases h : hs.any (fun p => p.1 == k) = true
  · simp only [updateHeader, h, if_true]
    exact headerGet_map_update k v hs h
  · have h2 : hs.any (fun p => p.1 == k) = false := Bool.eq_false_iff.mpr h
    simp only [updateHeader, h2, Bool.false_eq_true, if_false]
    exact headerGet_append_new k v hs h2

theorem ensureAuth_not_pending (c : FhirQueryClient) (srv : Server)
    (h : (c.pending_login && pyTruthyStr c.login_url) = false) :
    ensureAuth c srv = ([], .ok c) := by
  simp [ensureAuth, h]

theorem ensureAuth_cases (c : FhirQueryClient) (srv : Server) :
    ((c.pending_login && pyTruthyStr c.login_url) = false ∧ ensureAuth c srv = ([], .ok c))
    ∨ ensureAuth c srv = ([], .error .valueError)
    ∨ (∃ r, (ensureAuth c srv).1 = [r] ∧ r.headers = some c.headers ∧
        ((raisesForStatus (srv r).status = false ∧
          (ensureAuth c srv).2 =
            .ok { setupTokenAuth c (srv r).text with pending_login := false })
         ∨ (raisesForStatus (srv r).status = true ∧
            (ensureAuth c srv).2 = .error (.http (srv r).status (srv r).text)))) := by
  by_cases g : (c.pending_login && pyTruthyStr c.login_url) = true
  · right
    have gp : c.pending_login = true := (Bool.and_eq_true_iff.mp g).1
    have g2 : pyTruthyStr c.login_url = true := (Bool.and_eq_true_iff.mp g).2
    by_cases h1 : (!(pyTruthyStr c.username) || !(pyTruthyStr c.password)) = true
    · left
      simp [ensureAuth, g, gp, g2, setupLoginAuth, h1]
    · right
      have h1f : (!(pyTruthyStr c.username) || !(pyTruthyStr c.password)) = false :=
        Bool.eq_false_iff.mpr h1
      by_cases hst : raisesForStatus (srv (loginReq c (c.login_url.getD ""))).status = true
      · refine ⟨loginReq c (c.login_url.getD ""), ?_, rfl, Or.inr ⟨hst, ?_⟩⟩
        · simp [ensureAuth, g, gp, setupLoginAuth, h1f, g2, hst]
        · simp [ensureAuth, g, gp, setupLoginAuth, h1f, g2, hst]
      · have hst2 := Bool.eq_false_iff.mpr hst
        refine ⟨loginReq c (c.login_url.getD ""), ?_, rfl, Or.inl ⟨hst2, ?_⟩⟩
        · simp [ensureAuth, g, gp, setupLoginAuth, h1f, g2, hst2]
        · simp [ensureAuth, g, gp, setupLoginAuth, h1f, g2, hst2]
  · have gf := Bool.eq_false_iff.mpr g
    exact Or.inl ⟨gf, ensureAuth_not_pending c srv gf⟩

theorem internalGet_full_url (c : FhirQueryClient) (srv : Server) (a : GetArgs) (u : String)
    (h1 : a.full_url = .str u) (h2 : u ≠ "") (h3 : providedOptions a ≤ 1) :
    internalGet c srv a =
      ([fullUrlReq u a.headers],
       if raisesForStatus (srv (fullUrlReq u a.headers)).status then
         .error (.http (srv (fullUrlReq u a.headers)).status (srv (fullUrlReq u a.headers)).text)
       else .ok (FhirQueryBundle.ofPage (srv (fullUrlReq u a.headers)).json)) := by
  have ht : truthyFull a.full_url = true := by
    rw [h1]; simpa [truthyFull] using h2
  unfold internalGet
  rw [if_neg (by omega), if_pos ht, h1]
  by_cases hs : raisesForStatus (srv (fullUrlReq u a.headers)).status = true
  · have hs2 := hs
    simp only [fullUrlReq] at hs2
    simp [make_request, fullUrlReq, hs2, Except.map]
  · have hs2 : raisesForStatus (srv (fullUrlReq u a.headers)).status = false :=
      Bool.eq_false_iff.mpr hs
    simp only [fullUrlReq] at hs2
    simp [make_request, fullUrlReq, hs2, Except.map]

theorem internalGet_fault (c : FhirQueryClient) (srv : Server) (a : GetArgs) :
    faultTrace srv (internalGet c srv a).1 (errOf (internalGet c srv a).2) := by
  by_cases hA : providedOptions a > 1
  · unfold internalGet
    rw [if_pos hA]
    intro s b
    simp [errOf]
  · have h1 : providedOptions a ≤ 1 := by omega
    by_cases hF : truthyFull a.full_url = true
    · cases hfu : a.full_url with
      | boolFalse => rw [hfu] at hF; simp [truthyFull] at hF
      | boolTrue =>
        unfold internalGet
        rw [if_neg (by omega), if_pos hF, hfu]
        intro s b
        simp [errOf]
      | str u =>
        have hu : u ≠ "" := by
          rw [hfu] at hF
          simpa [truthyFull] using hF
        rw [internalGet_full_url c srv a u hfu hu h1]
        by_cases hs : raisesForStatus (srv (fullUrlReq u a.headers)).status = true
        · rw [if_pos hs]
          simp [faultTrace, hs, errOf]
        · have hs2 := Bool.eq_false_iff.mpr hs
          rw [if_neg hs]
          simp only [faultTrace, hs2, Bool.false_eq_true, if_false]
          intro s b
          simp [errOf]
    · have h2 : truthyFull a.full_url = false := Bool.eq_false_iff.mpr hF
      rw [internalGet_eq c srv a h1 h2]
      by_cases hs : raisesForStatus (srv (searchReq c a)).status = true
      · rw [if_pos hs]
        simp [faultTrace, hs, errOf]
      · have hs2 := Bool.eq_false_iff.mpr hs
        rw [if_neg hs]
        cases hp : a.pages with
        | none =>
          simp only [faultTrace, hs2, Bool.false_eq_true, if_false]
          intro s b
          simp [errOf]
        | some p =>
          by_cases hgt : p > 1
          · simp only [hgt, if_true]
            simp only [faultTrace, hs2, Bool.false_eq_true, if_false]
            exact fetchPages_fault srv c.base_url (p - 1) _
          · simp only [hgt, if_false]
            simp only [faultTrace, hs2, Bool.false_eq_true, if_false]
            intro s b
            simp [errOf]

theorem internalGet_take_headers (c : FhirQueryClient) (srv : Server) (a : GetArgs) :
    ∀ r ∈ (internalGet c srv a).1.take 1, r.headers = a.headers := by
  by_cases hA : providedOptions a > 1
  · unfold internalGet
    rw [if_pos hA]
    intro r hr
    simp at hr
  · have h1 : providedOptions a ≤ 1 := by omega
    by_cases hF : truthyFull a.full_url = true
    · cases hfu : a.full_url with
      | boolFalse => rw [hfu] at hF; simp [truthyFull] at hF
      | boolTrue =>
        unfold internalGet
        rw [if_neg (by omega), if_pos hF, hfu]
        intro r hr
        simp at hr
      | str u =>
        have hu : u ≠ "" := by
          rw [hfu] at hF
          simpa [truthyFull] using hF
        rw [internalGet_full_url c srv a u hfu hu h1]
        intro r hr
        simp at hr
        subst hr
        rfl
    · have h2 : truthyFull a.full_url = false := Bool.eq_false_iff.mpr hF
      rw [internalGet_eq c srv a h1 h2]
      have hreq : (searchReq c a).headers = a.headers := by
        unfold searchReq
        by_cases hp : (a.use_post || c.use_post) = true
        · simp [hp]
        · simp [Bool.eq_false_iff.mpr hp]
      by_cases hs : raisesForStatus (srv (searchReq c a)).status = true
      · rw [if_pos hs]
        intro r hr
        simp at hr
        subst hr
        exact hreq
      · rw [if_neg hs]
        cases hp : a.pages with
        | none =>
          intro r hr
          simp at hr
          subst hr
          exact hreq
        | some p =>
          by_cases hgt : p > 1
          · simp only [hgt, if_true]
            intro r hr
            simp at hr
            subst hr
            exact hreq
          · simp only [hgt, if_false]
            intro r hr
            simp at hr
            subst hr
            exact hreq

theorem internalGet_drop_headers (c : FhirQueryClient) (srv : Server) (a : GetArgs) :
    ∀ r ∈ (internalGet c srv a).1.drop 1, r.headers = none := by
  by_cases hA : providedOptions a > 1
  · unfold internalGet
    rw [if_pos hA]
    intro r hr
    simp at hr
  · have h1 : providedOptions a ≤ 1 := by omega
    by_cases hF : truthyFull a.full_url = true
    · cases hfu : a.full_url with
      | boolFalse => rw [hfu] at hF; simp [truthyFull] at hF
      | boolTrue =>
        unfold internalGet
        rw [if_neg (by omega), if_pos hF, hfu]
        intro r hr
        simp at hr
      | str u =>
        have hu : u ≠ "" := by
          rw [hfu] at hF
          simpa [truthyFull] using hF
        rw [internalGet_full_url c srv a u hfu hu h1]
        intro r hr
        simp at hr
    · have h2 : truthyFull a.full_url = false := Bool.eq_false_iff.mpr hF
      rw [internalGet_eq c srv a h1 h2]
      by_cases hs : raisesForStatus (srv (searchReq c a)).status = true
      · rw [if_pos hs]
        intro r hr
        simp at hr
      · rw [if_neg hs]
        cases hp : a.pages with
        | none =>
          intro r hr
          simp at hr
        | some p =>
          by_cases hgt : p > 1
          · simp only [hgt, if_true]
            intro r hr
            simp only [List.drop_succ_cons, List.drop_zero] at hr
            exact fetchPages_headers srv c.base_url (p - 1) _ r hr
          · simp only [hgt, if_false]
            intro r hr
            simp at hr

/-! ### Claims -/

/-- C1: the claim says that every call providing more than one of params,
search string and full URL is rejected before any network request, including
any login-exchange request. The code contradicts this twice: the assertion
counts `full_url` only when it is the literal boolean `True`, so a caller who
passes a URL string for `full_url` together with `params` is not rejected at
all (the full-URL GET is issued and `params` is silently ignored), and
`get` runs `ensure_auth` before the assertion, so a pending login request is
issued before a genuine rejection. -/
theorem c1_conflicting_options_not_rejected :
    ((internalGet cSlash srvDemo aParamsAndUrl).2 ≠ .error .assertionError
      ∧ (internalGet cSlash srvDemo aParamsAndUrl).1 = [fullUrlReq "https://other/x" none])
    ∧ ((FhirQueryClient.get cLogin srvDemo aParamsAndSearch).2 = .error .assertionError
      ∧ (FhirQueryClient.get cLogin srvDemo aParamsAndSearch).1 ≠ []) := by
  refine ⟨⟨by decide, by decide⟩, by decide, by decide⟩

/-- C5: selecting login-exchange without a login URL, or without both
username and password, fails at construction with a configuration fault
(validation modelled from the spec, since `fhir_query.base` is not in src). -/
theorem c5_login_config_fault (base_url : String) (use_post : Bool) (headers : HeadersMap)
    (auth_method login_url username password token : Option String)
    (h1 : auth_method = some "login")
    (h2 : login_url = none ∨ username = none ∨ password = none) :
    mkFhirQueryClient base_url use_post headers auth_method login_url username password token =
      .error .configError := by
  subst h1
  rcases h2 with h | h | h <;> subst h <;> simp [mkFhirQueryClient]

/-- Witness for C5 at a concrete configuration missing the login URL. -/
theorem c5_login_config_fault_witness :
    mkFhirQueryClient "https://h/fhir/" false [] (some "login") none (some "u") (some "p") none =
      .error .configError :=
  c5_login_config_fault "https://h/fhir/" false [] (some "login") none (some "u") (some "p") none
    rfl (Or.inl rfl)

/-- C7: a call with `full_url` set to a URL string issues exactly one GET to
exactly that URL, wraps the response in a bundle and returns it; no
pagination follow-up is issued in this branch, whatever `pages` and the
response's next link are. -/
theorem c7_full_url_single_get (c : FhirQueryClient) (srv : Server) (a : GetArgs) (u : String)
    (h1 : a.full_url = .str u) (h2 : u ≠ "") (h3 : a.params = none) (h4 : a.search_string = none)
    (h5 : is2xx (srv (fullUrlReq u a.headers)).status = true) :
    internalGet c srv a =
      ([fullUrlReq u a.headers],
       .ok (FhirQueryBundle.ofPage (srv (fullUrlReq u a.headers)).json)) := by
  have hpo : providedOptions a ≤ 1 := by
    simp [providedOptions, h3, h4, h1]
  have hnr : raisesForStatus (srv (fullUrlReq u a.headers)).status = false :=
    is2xx_not_raises _ h5
  rw [internalGet_full_url c srv a u h1 h2 hpo, if_neg (by simp [hnr])]

/-- Witness for C7: with a page budget of 5 and a first page that carries a
next link, the full-URL call still issues the one GET and follows nothing. -/
theorem c7_full_url_single_get_witness :
    internalGet cSlash srvDemo aFull =
      ([fullUrlReq "https://other/x" none],
       .ok { entries := ["p1"], next_link := some "/Patient?page=2" }) := by
  have h := c7_full_url_single_get cSlash srvDemo aFull "https://other/x" rfl (by decide)
    rfl rfl (by decide)
  exact h.trans (by decide)

/-- C8: with a page budget of one (or none), or a first-page response that
carries no next link, no follow-up request is issued: the call makes exactly
one page request. -/
theorem c8_single_page_request (c : FhirQueryClient) (srv : Server) (a : GetArgs)
    (h1 : providedOptions a ≤ 1) (h2 : a.full_url = .boolFalse)
    (h : (a.pages = none ∨ ∃ p, a.pages = some p ∧ p ≤ 1)
         ∨ (∀ r, (internalGet c srv a).1.head? = some r → nextOf (srv r).json = none)) :
    (internalGet c srv a).1.length = 1 := by
  have hf : truthyFull a.full_url = false := by rw [h2]; rfl
  rw [internalGet_eq c srv a h1 hf] at h ⊢
  by_cases hs : raisesForStatus (srv (searchReq c a)).status = true
  · rw [if_pos hs]
    simp
  · rw [if_neg hs] at h ⊢
    rcases h with (hn | ⟨p, hp, hple⟩) | hr
    · rw [hn]
      simp
    · rw [hp]
      have hngt : ¬ p > 1 := by omega
      simp [hngt]
    · cases hp : a.pages with
      | none => simp
      | some p =>
        rw [hp] at hr
        by_cases hgt : p > 1
        · simp only [hgt, if_true] at hr ⊢
          have hreq : nextOf (srv (searchReq c a)).json = none := hr (searchReq c a) rfl
          have hb0 : (FhirQueryBundle.ofPage (srv (searchReq c a)).json).next_link = none := by
            rw [ofPage_next, hreq]
          have hfst : (fetchPages srv c.base_url
              (FhirQueryBundle.ofPage (srv (searchReq c a)).json) (p - 1)).1 = [] := by
            cases hpm : p - 1 with
            | zero => rw [fetchPages_zero]
            | succ m => rw [fetchPages_no_link srv c.base_url _ m hb0]
          simp [hfst]
        · simp only [hgt, if_false]
          simp

/-- Witness for C8 at a concrete one-page query. -/
theorem c8_single_page_request_witness :
    (internalGet cSlash srvDemo aOnePage).1.length = 1 :=
  c8_single_page_request cSlash srvDemo aOnePage (by decide) rfl
    (Or.inl (Or.inr ⟨1, rfl, by decide⟩))

/-- C2: with a page budget `n > 1`, the call issues the initial search request
followed by a chain of follow-up GETs, each to the bundle's current next link
resolved against the base URL (absolute links used as is), issuing at most
`n` requests in total (so at most `n - 1` follow-ups); when a bundle is
returned, its entries are the concatenation of all fetched pages' entries in
fetch order, and the loop stopped either because no next link was left or
because the full budget was used. -/
theorem c2_pagination_follows_next_links (c : FhirQueryClient) (srv : Server) (a : GetArgs)
    (n : Nat) (h1 : providedOptions a ≤ 1) (h2 : truthyFull a.full_url = false)
    (h3 : a.pages = some n) (h4 : 1 < n) :
    (1 ≤ (internalGet c srv a).1.length ∧ (internalGet c srv a).1.length ≤ n)
    ∧ (∃ rest, (internalGet c srv a).1 = searchReq c a :: rest
        ∧ chainOkB srv c.base_url (nextOf (srv (searchReq c a)).json) rest = true)
    ∧ (∀ b, (internalGet c srv a).2 = .ok b →
        b.entries = concatEntries srv (internalGet c srv a).1
        ∧ (b.next_link = none ∨ (internalGet c srv a).1.length = n)) := by
  by_cases hs : raisesForStatus (srv (searchReq c a)).status = true
  · rw [internalGet_err c srv a h1 h2 hs]
    refine ⟨⟨by simp, by simp; omega⟩, ⟨[], rfl, chainOkB_nil srv c.base_url _⟩, ?_⟩
    intro b hb
    simp at hb
  · rw [internalGet_paged c srv a n h1 h2 h3 h4 (Bool.eq_false_iff.mpr hs)]
    refine ⟨⟨by simp, ?_⟩, ⟨_, rfl, ?_⟩, ?_⟩
    · have := fetchPages_length srv c.base_url (n - 1)
        (FhirQueryBundle.ofPage (srv (searchReq c a)).json)
      simp only [List.length_cons]
      omega
    · have := fetchPages_chain srv c.base_url (n - 1)
        (FhirQueryBundle.ofPage (srv (searchReq c a)).json)
      rw [ofPage_next] at this
      exact this
    · intro b hb
      constructor
      · have := fetchPages_entries srv c.base_url (n - 1)
          (FhirQueryBundle.ofPage (srv (searchReq c a)).json) b hb
        rw [ofPage_entries] at this
        rw [concatEntries_cons]
        exact this
      · rcases fetchPages_stop srv c.base_url (n - 1)
          (FhirQueryBundle.ofPage (srv (searchReq c a)).json) b hb with hnone | hlen
        · exact Or.inl hnone
        · right
          simp only [List.length_cons, hlen]
          omega

/-- Witness for C2: a two-page query against the demo server. -/
theorem c2_pagination_follows_next_links_witness :
    (1 ≤ (internalGet cSlash srvDemo aPag).1.length
      ∧ (internalGet cSlash srvDemo aPag).1.length ≤ 2)
    ∧ (∃ rest, (internalGet cSlash srvDemo aPag).1 = searchReq cSlash aPag :: rest
        ∧ chainOkB srvDemo cSlash.base_url
            (nextOf (srvDemo (searchReq cSlash aPag)).json) rest = true)
    ∧ (∀ b, (internalGet cSlash srvDemo aPag).2 = .ok b →
        b.entries = concatEntries srvDemo (internalGet cSlash srvDemo aPag).1
        ∧ (b.next_link = none ∨ (internalGet cSlash srvDemo aPag).1.length = 2)) :=
  c2_pagination_follows_next_links cSlash srvDemo aPag 2 (by decide) rfl rfl (by decide)

/-- C4 counterexample: the claim says any non-2xx response aborts the whole
operation immediately with a fault carrying its status and body. But
`raise_for_status` raises only for 4xx/5xx: here the first page is answered
304 Not Modified (non-2xx, with a JSON body), yet the client does not abort —
it issues a further request for the next link and returns a bundle, and no
HTTP fault surfaces at all. -/
theorem c4_redirect_counterexample :
    is2xx (srvRedirect (searchReq cSlash aPag)).status = false
    ∧ (internalGet cSlash srvRedirect aPag).1.length = 2
    ∧ (internalGet cSlash srvRedirect aPag).2 =
        .ok { entries := ["p1", "p2"], next_link := none } :=
  ⟨by decide, by decide, by decide⟩

/-- C4 (amended): over a whole query call (login exchange, initial page and
follow-up pages), any request answered with a 4xx or 5xx status — the
statuses `raise_for_status` raises for — is the last request issued: nothing
is fetched afterwards and nothing is retried, and the surfaced fault is the
HTTP fault carrying exactly that response's status code and body; an HTTP
fault never arises without a request. Statuses outside 400-599 are not
treated as transport errors and processing continues. -/
theorem c4_http_error_aborts_with_status (c : FhirQueryClient) (srv : Server) (a : GetArgs) :
    faultTrace srv (FhirQueryClient.get c srv a).1 (errOf (FhirQueryClient.get c srv a).2) := by
  rcases ensureAuth_cases c srv with ⟨gf, heq⟩ | heq | ⟨r, htr, hh, ⟨hst, hok⟩ | ⟨hst, herr⟩⟩
  · have e1 : (ensureAuth c srv).1 = [] := by rw [heq]
    have e2 : (ensureAuth c srv).2 = .ok c := by rw [heq]
    simp only [get_eq, e2, e1, List.nil_append]
    exact internalGet_fault c srv a
  · have e1 : (ensureAuth c srv).1 = [] := by rw [heq]
    have e2 : (ensureAuth c srv).2 = .error .valueError := by rw [heq]
    simp only [get_eq, e2, e1]
    intro s b
    simp [errOf]
  · simp only [get_eq, hok, htr]
    refine faultTrace_append srv [r] _ _ ?_ (internalGet_fault _ srv a)
    intro x hx
    rcases List.mem_singleton.mp hx with rfl
    exact hst
  · simp only [get_eq, herr, htr]
    simp [faultTrace, hst, errOf]

/-- C9: when `ensure_auth` succeeds it has issued at most one request, running
it again on the resulting client issues no request and leaves the client
unchanged, and if a login request was actually performed the client has left
the pending state, stored the token from the response body, and installed it
as a bearer Authorization header on the session (static-token behaviour). -/
theorem c9_ensure_auth_idempotent (c : FhirQueryClient) (srv : Server) (c2 : FhirQueryClient)
    (h : (ensureAuth c srv).2 = .ok c2) :
    (ensureAuth c srv).1.length ≤ 1
    ∧ ensureAuth c2 srv = ([], .ok c2)
    ∧ ((ensureAuth c srv).1 ≠ [] →
        c2.pending_login = false
        ∧ ∃ t, c2.token = some t
            ∧ headerGet c2.session_headers "Authorization" = some ("Bearer " ++ t)) := by
  rcases ensureAuth_cases c srv with ⟨gf, heq⟩ | heq | ⟨r, htr, hh, ⟨hst, hok⟩ | ⟨hst, herr⟩⟩
  · rw [heq] at h ⊢
    simp only [Except.ok.injEq] at h
    subst h
    exact ⟨by simp, ensureAuth_not_pending _ srv gf, by simp⟩
  · rw [heq] at h
    simp at h
  · rw [hok] at h
    simp only [Except.ok.injEq] at h
    subst h
    refine ⟨by rw [htr]; simp, ?_, ?_⟩
    · apply ensureAuth_not_pending
      simp
    · intro _
      exact ⟨rfl, ⟨(srv r).text, rfl,
        headerGet_updateHeader c.session_headers "Authorization" ("Bearer " ++ (srv r).text)⟩⟩
  · rw [herr] at h
    simp at h

/-- Witness for C9: the demo login client against the demo server. -/
theorem c9_ensure_auth_idempotent_witness :
    (ensureAuth cLogin srvDemo).1.length ≤ 1
    ∧ ensureAuth cLoginDone srvDemo = ([], .ok cLoginDone)
    ∧ ((ensureAuth cLogin srvDemo).1 ≠ [] →
        cLoginDone.pending_login = false
        ∧ ∃ t, cLoginDone.token = some t
            ∧ headerGet cLoginDone.session_headers "Authorization" = some ("Bearer " ++ t)) :=
  c9_ensure_auth_idempotent cLogin srvDemo cLoginDone (by decide)

/-- C6 counterexample: with the base URL `https://h/fhir` (no trailing slash),
a GET query for `Patient` with params is issued to
`https://h/Patient?a=1&b=2` — Python's `urljoin` replaces the base's last
path segment — and not to `{base}/{resourceType}?querystring`. -/
theorem c6_get_target_counterexample :
    (internalGet cNoSlash srvDemo aParamsAB).1.map Request.url = ["https://h/Patient?a=1&b=2"]
    ∧ ("https://h/Patient?a=1&b=2" : String) ≠ "https://h/fhir" ++ "/Patient" ++ "?a=1&b=2" :=
  ⟨by decide, by decide⟩

/-- C6 (amended): a GET-mode call issues a single GET whose target is
`urljoin(base, resourceType)` — which equals `{base}/{resourceType}` exactly
when the base URL ends with a slash — with a query string appended when the
params mapping is nonempty (its URL-encoding, every pair in insertion order)
or the search string is nonempty (taken unchanged). -/
theorem c6_get_request_target (c : FhirQueryClient) (srv : Server) (a : GetArgs)
    (h1 : providedOptions a ≤ 1) (h3 : a.full_url = .boolFalse)
    (h5 : a.use_post = false) (h5b : c.use_post = false) (h6 : a.pages = none) :
    (internalGet c srv a).1 = [searchReq c a]
    ∧ (searchReq c a).method = "GET"
    ∧ (searchReq c a).data = none
    ∧ (searchReq c a).headers = a.headers
    ∧ ((searchReq c a).url = match searchParamsOf a with
        | some q => urljoin c.base_url a.resource_type ++ "?" ++ q
        | none => urljoin c.base_url a.resource_type)
    ∧ (∀ ps, a.params = some ps → ps ≠ [] →
        searchParamsOf a =
          some (String.intercalate "&"
            (ps.map fun kv => quote_plus kv.1 ++ "=" ++ quote_plus kv.2)))
    ∧ (∀ s, a.params = none → a.search_string = some s → s ≠ "" →
        searchParamsOf a = some s) := by
  have hf : truthyFull a.full_url = false := by rw [h3]; rfl
  have hp : (a.use_post || c.use_post) = false := by rw [h5, h5b]; rfl
  refine ⟨?_, ?_, ?_, ?_, ?_, ?_, ?_⟩
  · by_cases hs : raisesForStatus (srv (searchReq c a)).status = true
    · rw [internalGet_err c srv a h1 hf hs]
    · rw [internalGet_eq c srv a h1 hf, if_neg hs, h6]
  · simp [searchReq, hp]
  · simp [searchReq, hp]
  · simp [searchReq, hp]
  · simp [searchReq, hp]
  · intro ps hps hne
    simp [searchParamsOf, pyTruthyParams, hps, hne, urlencode]
  · intro s hpn hss hse
    simp [searchParamsOf, pyTruthyParams, pyTruthyStr, hpn, hss, hse]

/-- Witness for C6: against the trailing-slash base the GET goes to
`{base}Patient?a=1&b=2`, both encoded pairs present in insertion order. -/
theorem c6_get_request_target_witness :
    (internalGet cSlash srvDemo aParamsAB).1 = [searchReq cSlash aParamsAB]
    ∧ searchReq cSlash aParamsAB = ⟨"GET", "https://h/fhir/Patient?a=1&b=2", none, none, none⟩ := by
  have h := c6_get_request_target cSlash srvDemo aParamsAB (by decide) rfl rfl rfl rfl
  exact ⟨h.1, by decide⟩

/-- C10: the per-call headers argument is attached only to the initial page
request (the follow-up GETs of the pagination loop carry no per-call headers),
and the login request carries the client's own headers. -/
theorem c10_per_call_headers_only_on_first (c : FhirQueryClient) (srv : Server) (a : GetArgs) :
    (∀ r ∈ (internalGet c srv a).1.drop 1, r.headers = none)
    ∧ (∀ r ∈ (internalGet c srv a).1.take 1, r.headers = a.headers)
    ∧ (∀ r ∈ (ensureAuth c srv).1, r.headers = some c.headers) := by
  refine ⟨internalGet_drop_headers c srv a, internalGet_take_headers c srv a, ?_⟩
  rcases ensureAuth_cases c srv with ⟨gf, heq⟩ | heq | ⟨r, htr, hh, _⟩
  · rw [heq]
    intro x hx
    simp at hx
  · rw [heq]
    intro x hx
    simp at hx
  · rw [htr]
    intro x hx
    rcases List.mem_singleton.mp hx with rfl
    exact hh

end FhirQuery
